import Mathlib

set_option maxRecDepth 100000

/-!
Verification of the Dual EC backdoor demonstration (`dualec.py`).

Shallow embedding of `src/dualec.py`.  The elliptic-curve point arithmetic,
the modular square root and the modular inverse are external collaborators
(supplied by `fastecdsa` and `mathutil` in the source), so the embedding is
parameterised over a `CurveOps` record of point operations, a square-root
function and an inverse function.  The curve constants of P-256 (`P256.p`,
`P256.b`, `P256.q`, `P256.G`) are fixed known numbers and are embedded
concretely.

For witnesses and counterexamples we also provide a concrete executable
implementation of P-256 point arithmetic (`p256ops`, Jacobian coordinates
with Fermat inversion), the closed-form square root `p256sqrt` (valid since
`p ≡ 3 [MOD 4]`) and the Fermat modular inverse `modInvF`.
-/

/-! ## P-256 curve constants (fastecdsa `P256`) -/

def p256p : Nat :=
  0xffffffff00000001000000000000000000000000ffffffffffffffffffffffff

def p256b : Nat :=
  0x5ac635d8aa3a93e7b3ebbd55769886bc651d06b0cc53b0f63bce3c3e27d2604b

/-- Constant `P256.q` in the source: the (prime) order of the curve group. -/
def p256q : Nat :=
  0xffffffff00000000ffffffffffffffffbce6faada7179e84f3b9cac2fc632551

def p256Gx : Nat :=
  0x6b17d1f2e12c4247f8bce6e563a440f277037d812deb33a0f4a13945d898c296

def p256Gy : Nat :=
  0x4fe342e2fe1a7f9b8ee7eb4a7c0f9e162bce33576b315ececbb6406837bf51f5

/-! ## Abstract curve provider

`fastecdsa.point.Point` objects support scalar multiplication (`k * P`),
x-coordinate access (`P.x`), construction from coordinates
(`Point(x, y, curve=P256)`), equality (`P == Q`) and the distinguished base
point `P256.G`.  The embedding abstracts these as a record. -/

structure CurveOps (Pt : Type) where
  smul : Nat → Pt → Pt
  x : Pt → Nat
  mkpt : Nat → Nat → Pt
  peq : Pt → Pt → Bool
  G : Pt

/-! ## Truncation helpers (lines 12-13, 66-70 of the source) -/

/-- Source: `def take30bytes(x): return x & (2**(8*30)-1)`. -/
def take30bytes (x : Nat) : Nat := x &&& (2 ^ (8 * 30) - 1)

/-- Source: `def take26bytes(next_output): return next_output & 2**(8*26)-1`. -/
def take26bytes (next_output : Nat) : Nat := next_output &&& (2 ^ (8 * 26) - 1)

/-- Source: `def take4MSBytes(next_output): return next_output >> (8*26)`. -/
def take4MSBytes (next_output : Nat) : Nat := next_output >>> (8 * 26)

/-! ## The generator (class `DualEC`, lines 15-27) -/

structure DualEC (Pt : Type) where
  seed : Nat
  P : Pt
  Q : Pt

/-- Method `DualEC.genbits`: the in-place update of `self.seed` is modelled by
returning the new state alongside the 30-byte output. -/
def DualEC.genbits {Pt : Type} (C : CurveOps Pt) (st : DualEC Pt) :
    DualEC Pt × Nat :=
  let t := st.seed
  let s := C.x (C.smul t st.P)
  let r := C.x (C.smul s st.Q)
  (⟨s, st.P, st.Q⟩, take30bytes r)

/-- Output stream of `k` consecutive `genbits()` calls. -/
def runOutputs {Pt : Type} (C : CurveOps Pt) : DualEC Pt → Nat → List Nat
  | _, 0 => []
  | st, k + 1 =>
    (DualEC.genbits C st).2 :: runOutputs C (DualEC.genbits C st).1 k

/-! ## Backdoor construction (lines 30-64) -/

/-- Functions `backdoor_sanity_check` and `gen_backdoor`.  The random draw
`d = randint(2, P256.q)` is modelled by taking `d` as a parameter; the
`assert(d * Q == P)` abort is modelled by returning `none`; the `print`
calls are side-effect glue and are dropped.  `inv` is the external
`mod_inv` from `mathutil`. -/
def gen_backdoor {Pt : Type} (C : CurveOps Pt) (inv : Nat → Nat → Nat)
    (d : Nat) : Option (Pt × Pt × Nat) :=
  let P := C.G
  let e := inv d p256q
  let Q := C.smul e P
  if C.peq (C.smul d Q) P then some (P, Q, d) else none

/-! ## Curve membership test (lines 35-45) -/

/-- Source: `y2 = (x*x*x) - (3*x) + P256.b; y2 = y2 % P256.p`, computed over `Int`
to mirror Python's signed arithmetic followed by a nonnegative `%`. -/
def curveRHS (x : Nat) : Nat :=
  (((x : Int) * x * x - 3 * (x : Int) + (p256b : Int)) % (p256p : Int)).toNat

/-- Function `find_point_on_p256`: returns the coordinate pair of the point; the
`Point(x, y, curve=P256)` constructor applied to it lives at the call
site (`CurveOps.mkpt`) since the point type is the provider's. -/
def find_point_on_p256 (sqrt : Nat → Nat) (x : Nat) : Option (Nat × Nat) :=
  let y2 := curveRHS x
  let y := sqrt y2
  if y2 = (y * y) % p256p then some (x, y) else none

/-! ## The predictor (lines 72-96) -/

/-- One iteration of the `for high_bits in range(2**16)` loop body of
`gen_prediction`: `some v` when this candidate passes both the curve
membership test and the 4-byte verification (the loop then returns `v`),
`none` when the loop falls through to the next candidate. -/
def predictionStep {Pt : Type} (C : CurveOps Pt) (sqrt : Nat → Nat)
    (observed1 observed2 : Nat) (Q : Pt) (d : Nat) (high_bits : Nat) :
    Option Nat :=
  let guess := (high_bits <<< (8 * 30)) ||| observed1
  match find_point_on_p256 sqrt guess with
  | none => none
  | some pt =>
    let point := C.mkpt pt.1 pt.2
    let state := C.x (C.smul d point)
    let next_output := take30bytes (C.x (C.smul state Q))
    if take4MSBytes next_output = observed2 then some (take26bytes next_output)
    else none

/-- The bounded search loop: try `step i, step (i+1), ...` for `fuel`
candidates, returning the first `some`. -/
def searchLoop (step : Nat → Option Nat) : Nat → Nat → Option Nat
  | _, 0 => none
  | i, fuel + 1 =>
    match step i with
    | some v => some v
    | none => searchLoop step (i + 1) fuel

/-- Function `gen_prediction(observed1, observed2, P, Q, d)`: the
`raise ValueError` on loop exhaustion is modelled as `none`.  As in the
source, the parameter `P` is unused by the body. -/
def gen_prediction {Pt : Type} (C : CurveOps Pt) (sqrt : Nat → Nat)
    (observed1 observed2 : Nat) (P Q : Pt) (d : Nat) : Option Nat :=
  searchLoop (predictionStep C sqrt observed1 observed2 Q d) 0 (2 ^ 16)

/-! ## Concrete executable P-256 arithmetic

Used to instantiate the abstract provider in witnesses and
counterexamples.  Jacobian coordinates `(X, Y, Z)` with the point at
infinity encoded as `Z = 0`; field inversion by Fermat's little theorem. -/

/-- Binary modular exponentiation, structurally recursive on fuel
(257 ≥ bit length of any exponent used here). -/
def powModAux : Nat → Nat → Nat → Nat → Nat
  | 0, _, _, _ => 1
  | fuel + 1, b, e, m =>
    if e = 0 then 1 % m
    else
      let r := powModAux fuel (b * b % m) (e / 2) m
      if e % 2 = 1 then r * b % m else r

def powMod (b e m : Nat) : Nat := powModAux 257 (b % m) e m

/-- Jacobian doubling on P-256 (uses `a = -3`). -/
def jdbl : Nat × Nat × Nat → Nat × Nat × Nat
  | (X, Y, Z) =>
    if Z = 0 then (1, 1, 0)
    else
      let p := p256p
      let d := Z * Z % p
      let g := Y * Y % p
      let be := X * g % p
      let al := 3 * ((X + p - d) % p) * ((X + d) % p) % p
      let t8b := 8 * be % p
      let X3 := (al * al % p + p - t8b) % p
      let Z3 := ((Y + Z) * (Y + Z) % p + 2 * p - g - d) % p
      let Y3 := (al * ((4 * be % p + p - X3) % p) % p + p - 8 * (g * g % p) % p) % p
      (X3, Y3, Z3)

/-- Jacobian addition on P-256. -/
def jadd : Nat × Nat × Nat → Nat × Nat × Nat → Nat × Nat × Nat
  | (X1, Y1, Z1), (X2, Y2, Z2) =>
    if Z1 = 0 then (X2, Y2, Z2)
    else if Z2 = 0 then (X1, Y1, Z1)
    else
      let p := p256p
      let Z1Z1 := Z1 * Z1 % p
      let Z2Z2 := Z2 * Z2 % p
      let U1 := X1 * Z2Z2 % p
      let U2 := X2 * Z1Z1 % p
      let S1 := Y1 * Z2 % p * Z2Z2 % p
      let S2 := Y2 * Z1 % p * Z1Z1 % p
      if U1 = U2 then
        if S1 = S2 then jdbl (X1, Y1, Z1) else (1, 1, 0)
      else
        let H := (U2 + p - U1) % p
        let R := (S2 + p - S1) % p
        let HH := H * H % p
        let HHH := H * HH % p
        let V := U1 * HH % p
        let t := (R * R % p + p - HHH) % p
        let X3 := (t + p - 2 * V % p) % p
        let Y3 := (R * ((V + p - X3) % p) % p + p - S1 * HHH % p) % p
        let Z3 := Z1 * Z2 % p * H % p
        (X3, Y3, Z3)

def affinize : Nat × Nat × Nat → Nat × Nat
  | (X, Y, Z) =>
    if Z = 0 then (0, 0)
    else
      let zi := powMod Z (p256p - 2) p256p
      let zi2 := zi * zi % p256p
      (X * zi2 % p256p, Y * zi2 % p256p * zi % p256p)

/-- Double-and-add ladder, structurally recursive on fuel. -/
def jsmulAux : Nat → Nat → Nat × Nat × Nat → Nat × Nat × Nat → Nat × Nat × Nat
  | 0, _, _, acc => acc
  | fuel + 1, k, base, acc =>
    if k = 0 then acc
    else
      jsmulAux fuel (k / 2) (jdbl base)
        (if k % 2 = 1 then jadd acc base else acc)

def p256smul (k : Nat) (P : Nat × Nat) : Nat × Nat :=
  affinize (jsmulAux 257 k (P.1, P.2, 1) (1, 1, 0))

/-- Square root mod `p256p` by the closed form for `p ≡ 3 [MOD 4]`
(the external `p256_mod_sqrt` of `mathutil`). -/
def p256sqrt (a : Nat) : Nat := powMod a ((p256p + 1) / 4) p256p

/-- Fermat modular inverse (the external `mod_inv` of `mathutil`,
specialised to prime moduli, which is how the source uses it). -/
def modInvF (a m : Nat) : Nat := powMod a (m - 2) m

/-- The concrete P-256 provider. -/
def p256ops : CurveOps (Nat × Nat) where
  smul := p256smul
  x := Prod.fst
  mkpt := Prod.mk
  peq := fun A B => decide (A = B)
  G := (p256Gx, p256Gy)

/-! ## Arithmetic bridge lemmas for the truncation helpers -/

lemma take30bytes_eq_mod (x : Nat) : take30bytes x = x % 2 ^ 240 :=
  Nat.and_pow_two_sub_one_eq_mod x 240

lemma take26bytes_eq_mod (x : Nat) : take26bytes x = x % 2 ^ 208 :=
  Nat.and_pow_two_sub_one_eq_mod x 208

lemma take4MSBytes_eq_shiftRight (x : Nat) : take4MSBytes x = x >>> 208 := rfl

/-- Splitting a natural number at bit `n` and re-assembling with `|||`
recovers it. -/
lemma shiftRight_shiftLeft_or_mod (x n : Nat) :
    ((x >>> n) <<< n) ||| (x % 2 ^ n) = x := by
  apply Nat.eq_of_testBit_eq
  intro i
  simp only [Nat.testBit_or, Nat.testBit_shiftLeft, Nat.testBit_shiftRight,
    Nat.testBit_mod_two_pow]
  by_cases h : n ≤ i
  · have : n + (i - n) = i := by omega
    simp [h, this, Nat.not_lt.mpr h]
  · simp [h, Nat.lt_of_not_le h]

/-! ## Search loop characterisations -/

lemma searchLoop_none_iff (step : Nat → Option Nat) :
    ∀ (fuel start : Nat),
      searchLoop step start fuel = none ↔
        ∀ j : Nat, start ≤ j → j < start + fuel → step j = none := by
  intro fuel
  induction fuel with
  | zero =>
    intro start
    simp only [searchLoop, true_iff]
    intro j h1 h2
    omega
  | succ n ih =>
    intro start
    simp only [searchLoop]
    cases hs : step start with
    | some w =>
      constructor
      · intro h
        exact Option.noConfusion h
      · intro h
        have h2 := h start (Nat.le_refl _) (by omega)
        rw [hs] at h2
        exact Option.noConfusion h2
    | none =>
      rw [ih (start + 1)]
      constructor
      · intro h j h1 h2
        rcases Nat.eq_or_lt_of_le h1 with h1' | h1'
        · rw [← h1']; exact hs
        · exact h j h1' (by omega)
      · intro h j h1 h2
        exact h j (by omega) (by omega)

lemma searchLoop_some_iff (step : Nat → Option Nat) :
    ∀ (fuel start : Nat) (v : Nat),
      searchLoop step start fuel = some v ↔
        ∃ k : Nat, start ≤ k ∧ k < start + fuel ∧ step k = some v ∧
          ∀ j : Nat, start ≤ j → j < k → step j = none := by
  intro fuel
  induction fuel with
  | zero =>
    intro start v
    simp only [searchLoop]
    constructor
    · intro h
      exact Option.noConfusion h
    · rintro ⟨k, h1, h2, -, -⟩
      omega
  | succ n ih =>
    intro start v
    simp only [searchLoop]
    cases hs : step start with
    | some w =>
      constructor
      · intro h
        have hw : w = v := Option.some.inj h
        exact ⟨start, Nat.le_refl _, by omega, by rw [hs, hw],
          fun j h1 h2 => by omega⟩
      · rintro ⟨k, hk1, _, hk3, hk4⟩
        rcases Nat.eq_or_lt_of_le hk1 with hk1' | hk1'
        · rw [← hk1', hs] at hk3
          rw [Option.some.inj hk3]
        · have h2 := hk4 start (Nat.le_refl _) hk1'
          rw [hs] at h2
          exact Option.noConfusion h2
    | none =>
      rw [ih (start + 1) v]
      constructor
      · rintro ⟨k, hk1, hk2, hk3, hk4⟩
        refine ⟨k, by omega, by omega, hk3, ?_⟩
        intro j h1 h2
        rcases Nat.eq_or_lt_of_le h1 with h1' | h1'
        · rw [← h1']; exact hs
        · exact hk4 j h1' h2
      · rintro ⟨k, hk1, hk2, hk3, hk4⟩
        have hk1' : start + 1 ≤ k := by
          rcases Nat.eq_or_lt_of_le hk1 with h | h
          · rw [← h, hs] at hk3
            exact Option.noConfusion hk3
          · omega
        exact ⟨k, hk1', by omega, hk3, fun j h1 h2 => hk4 j (by omega) h2⟩

/-! ## Candidate-step characterisations -/

lemma predictionStep_eq_some_iff {Pt : Type} (C : CurveOps Pt) (sqrt : Nat → Nat)
    (o1 o2 : Nat) (Q : Pt) (d h v : Nat) :
    predictionStep C sqrt o1 o2 Q d h = some v ↔
      ∃ pt : Nat × Nat,
        find_point_on_p256 sqrt ((h <<< 240) ||| o1) = some pt ∧
        take4MSBytes (take30bytes (C.x (C.smul (C.x (C.smul d (C.mkpt pt.1 pt.2))) Q)))
          = o2 ∧
        v = take26bytes (take30bytes (C.x (C.smul (C.x (C.smul d (C.mkpt pt.1 pt.2))) Q))) := by
  simp only [predictionStep]
  rcases hfp : find_point_on_p256 sqrt ((h <<< 240) ||| o1) with _ | pt0
  · constructor
    · intro hc
      exact Option.noConfusion hc
    · rintro ⟨pt, hpt, -, -⟩
      exact Option.noConfusion hpt
  · dsimp only
    constructor
    · intro hc
      refine ⟨pt0, rfl, ?_, ?_⟩
      · by_contra hne
        rw [if_neg hne] at hc
        exact Option.noConfusion hc
      · by_cases he : take4MSBytes
            (take30bytes (C.x (C.smul (C.x (C.smul d (C.mkpt pt0.1 pt0.2))) Q))) = o2
        · rw [if_pos he] at hc
          exact (Option.some.inj hc).symm
        · rw [if_neg he] at hc
          exact Option.noConfusion hc
    · rintro ⟨pt, hpt, hver, hv⟩
      have hpt' : pt0 = pt := Option.some.inj hpt
      subst hpt'
      rw [if_pos hver, hv]

lemma predictionStep_eq_none_iff {Pt : Type} (C : CurveOps Pt) (sqrt : Nat → Nat)
    (o1 o2 : Nat) (Q : Pt) (d h : Nat) :
    predictionStep C sqrt o1 o2 Q d h = none ↔
      (find_point_on_p256 sqrt ((h <<< 240) ||| o1) = none ∨
        ∀ pt : Nat × Nat,
          find_point_on_p256 sqrt ((h <<< 240) ||| o1) = some pt →
          take4MSBytes (take30bytes (C.x (C.smul (C.x (C.smul d (C.mkpt pt.1 pt.2))) Q)))
            ≠ o2) := by
  simp only [predictionStep]
  rcases hfp : find_point_on_p256 sqrt ((h <<< 240) ||| o1) with _ | pt0
  · constructor
    · intro hc
      exact Or.inl rfl
    · intro hc
      rfl
  · dsimp only
    constructor
    · intro hc
      right
      intro pt hpt he
      have hpt' : pt0 = pt := Option.some.inj hpt
      subst hpt'
      rw [if_pos he] at hc
      exact Option.noConfusion hc
    · rintro (h1 | h2)
      · exact Option.noConfusion h1
      · rw [if_neg (h2 pt0 rfl)]

/-! ## A degenerate provider, used to instantiate universally quantified
theorems at a concrete input. -/

def unitOps : CurveOps Unit where
  smul := fun _ _ => ()
  x := fun _ => p256Gx
  mkpt := fun _ _ => ()
  peq := fun _ _ => true
  G := ()

/-- C3.  Generator step contract: a `genbits()` call with current seed `t`
stores `s = x(t·P)` as the new seed, and returns `r = x(s·Q)` masked to the
low 240 bits, hence an output strictly below `2^240`. -/
theorem genbits_contract {Pt : Type} (C : CurveOps Pt) (st : DualEC Pt) :
    (DualEC.genbits C st).1.seed = C.x (C.smul st.seed st.P) ∧
    (DualEC.genbits C st).2 =
      take30bytes (C.x (C.smul (C.x (C.smul st.seed st.P)) st.Q)) ∧
    (DualEC.genbits C st).2 < 2 ^ 240 := by
  refine ⟨rfl, rfl, ?_⟩
  show take30bytes _ < 2 ^ 240
  rw [take30bytes_eq_mod]
  exact Nat.mod_lt _ (by positivity)

/-- C9.  Frame property: `genbits()` leaves the `P` and `Q` fields of the
generator state unchanged; only the seed is replaced. -/
theorem genbits_frame {Pt : Type} (C : CurveOps Pt) (st : DualEC Pt) :
    (DualEC.genbits C st).1.P = st.P ∧ (DualEC.genbits C st).1.Q = st.Q :=
  ⟨rfl, rfl⟩

/-- C8.  Determinism: two `DualEC` instances built from the same initial
seed and the same pair `(P, Q)` produce identical output sequences for any
number of `genbits()` calls; the output stream is a function of
`(seed, P, Q)` alone. -/
theorem genbits_deterministic {Pt : Type} (C : CurveOps Pt)
    (st st' : DualEC Pt) (h1 : st.seed = st'.seed) (h2 : st.P = st'.P)
    (h3 : st.Q = st'.Q) (k : Nat) :
    runOutputs C st k = runOutputs C st' k := by
  have hst : st = st' := by
    cases st
    cases st'
    simp_all
  rw [hst]

/-- Witness for C8 at the concrete P-256 provider. -/
theorem genbits_deterministic_witness :
    runOutputs p256ops ⟨7, (p256Gx, p256Gy), (p256Gx, p256Gy)⟩ 3 =
      runOutputs p256ops ⟨7, (p256Gx, p256Gy), (p256Gx, p256Gy)⟩ 3 :=
  genbits_deterministic p256ops _ _ rfl rfl rfl 3

/-- C10.  Truncation decomposition: for a 30-byte value `x`, the observed
4 most significant bytes and the predicted 26 low bytes exactly partition
`x`: re-assembling them with a 208-bit shift recovers `x`, and they are
bounded by `2^32` and `2^208` respectively. -/
theorem truncation_decomposition (x : Nat) (hx : x < 2 ^ 240) :
    ((take4MSBytes x) <<< 208) ||| take26bytes x = x ∧
    take26bytes x < 2 ^ 208 ∧ take4MSBytes x < 2 ^ 32 := by
  refine ⟨?_, ?_, ?_⟩
  · rw [take4MSBytes_eq_shiftRight, take26bytes_eq_mod]
    exact shiftRight_shiftLeft_or_mod x 208
  · rw [take26bytes_eq_mod]
    exact Nat.mod_lt _ (by positivity)
  · rw [take4MSBytes_eq_shiftRight, Nat.shiftRight_eq_div_pow]
    rw [Nat.div_lt_iff_lt_mul (by positivity)]
    calc x < 2 ^ 240 := hx
    _ = 2 ^ 32 * 2 ^ 208 := by norm_num

/-- Witness for C10 at a concrete 30-byte value. -/
theorem truncation_decomposition_witness :
    ((take4MSBytes 0xabcdef) <<< 208) ||| take26bytes 0xabcdef = 0xabcdef ∧
    take26bytes 0xabcdef < 2 ^ 208 ∧ take4MSBytes 0xabcdef < 2 ^ 32 :=
  truncation_decomposition 0xabcdef (by norm_num)

/-- Counterexample to C7 as stated: running the generator on the concrete
P-256 arithmetic from seed 1 stores the base point's x-coordinate as the
new seed, and that value does not fit in 30 bytes. -/
theorem seed_width_cex :
    (DualEC.genbits p256ops ⟨1, (p256Gx, p256Gy), (p256Gx, p256Gy)⟩).1.seed
        = p256Gx ∧
    ¬ (DualEC.genbits p256ops ⟨1, (p256Gx, p256Gy), (p256Gx, p256Gy)⟩).1.seed
        < 2 ^ 240 := by
  constructor
  · decide
  · decide

/-- C7 amended: `genbits()` replaces the seed with the x-coordinate of
`seed·P`; since x-coordinates of P-256 points are field elements, the seed
stays below `2^256` (32 bytes), but not below `2^240`. -/
theorem seed_width_amended {Pt : Type} (C : CurveOps Pt)
    (hx : ∀ R : Pt, C.x R < 2 ^ 256) (st : DualEC Pt) :
    (DualEC.genbits C st).1.seed = C.x (C.smul st.seed st.P) ∧
    (DualEC.genbits C st).1.seed < 2 ^ 256 :=
  ⟨rfl, hx _⟩

/-- Witness for the amended C7. -/
theorem seed_width_amended_witness :
    (DualEC.genbits unitOps ⟨1, (), ()⟩).1.seed
        = unitOps.x (unitOps.smul 1 ()) ∧
    (DualEC.genbits unitOps ⟨1, (), ()⟩).1.seed < 2 ^ 256 :=
  seed_width_amended unitOps (fun R => by cases R; decide) ⟨1, (), ()⟩

/-- C6.  Curve-membership test contract: `find_point_on_p256` returns a
point exactly when squaring the value the modular square root returned for
`x^3 - 3x + b mod p` reproduces that quantity; any returned point has the
queried x-coordinate and its y-coordinate satisfies the curve equation
modulo `p`. -/
theorem find_point_contract (sqrt : Nat → Nat) (x : Nat) :
    (∀ pt : Nat × Nat, find_point_on_p256 sqrt x = some pt →
        pt.1 = x ∧ (pt.2 * pt.2) % p256p = curveRHS x) ∧
    (find_point_on_p256 sqrt x = none ↔
        (sqrt (curveRHS x) * sqrt (curveRHS x)) % p256p ≠ curveRHS x) := by
  unfold find_point_on_p256
  by_cases hc : curveRHS x = (sqrt (curveRHS x) * sqrt (curveRHS x)) % p256p
  · rw [if_pos hc]
    constructor
    · intro pt hpt
      have hpt' : (x, sqrt (curveRHS x)) = pt := Option.some.inj hpt
      rw [← hpt']
      exact ⟨rfl, hc.symm⟩
    · constructor
      · intro h
        exact Option.noConfusion h
      · intro h
        exact absurd hc.symm h
  · rw [if_neg hc]
    constructor
    · intro pt hpt
      exact Option.noConfusion hpt
    · constructor
      · intro _ h
        exact hc h.symm
      · intro _
        rfl

/-- Witness for C6: the base point's x-coordinate admits a square root,
and the returned point's coordinates satisfy the curve equation. -/
theorem find_point_contract_witness :
    find_point_on_p256 p256sqrt p256Gx
        = some (p256Gx, p256sqrt (curveRHS p256Gx)) ∧
    (p256sqrt (curveRHS p256Gx) * p256sqrt (curveRHS p256Gx)) % p256p
        = curveRHS p256Gx :=
  ⟨by decide,
    ((find_point_contract p256sqrt p256Gx).1
      (p256Gx, p256sqrt (curveRHS p256Gx)) (by decide)).2⟩

/-- C2.  Backdoor construction postcondition: for a drawn scalar
`d ∈ [2, q]`, provided the external curve and inverse providers satisfy
`d·(d⁻¹·G) = G` (which correct arithmetic always does), `gen_backdoor`
returns `(P, Q, d)` with `P` the base point and `Q = d⁻¹·P`, the inverse
taken modulo the curve order `q`; whenever the sanity check fails the run
aborts (`none`) instead of returning a triple. -/
theorem gen_backdoor_contract {Pt : Type} (C : CurveOps Pt)
    (inv : Nat → Nat → Nat) (d : Nat) (hd : 2 ≤ d ∧ d ≤ p256q)
    (hck : C.peq (C.smul d (C.smul (inv d p256q) C.G)) C.G = true) :
    gen_backdoor C inv d = some (C.G, C.smul (inv d p256q) C.G, d) ∧
    (∀ {Pt' : Type} (C' : CurveOps Pt') (inv' : Nat → Nat → Nat) (d' : Nat),
      C'.peq (C'.smul d' (C'.smul (inv' d' p256q) C'.G)) C'.G = false →
      gen_backdoor C' inv' d' = none) := by
  constructor
  · simp only [gen_backdoor]
    rw [hck]
    simp
  · intro Pt' C' inv' d' hck'
    simp only [gen_backdoor]
    rw [hck']
    simp

/-- Witness for C2 with the concrete P-256 provider, `d = 2` and the
Fermat modular inverse: the backdoor construction succeeds and the sanity
check passes. -/
theorem gen_backdoor_contract_witness :
    gen_backdoor p256ops modInvF 2
      = some (p256ops.G, p256ops.smul (modInvF 2 p256q) p256ops.G, 2) :=
  (gen_backdoor_contract p256ops modInvF 2 (by decide) (by decide)).1

/-- C4.  Predictor search and tie-break: `gen_prediction` returns `v` iff
some `high_bits < 2^16` is the first candidate (in increasing numeric
order) whose reconstructed `guess = (high_bits <<< 240) ||| observed1` is
the x-coordinate of a curve point and whose predicted next output has top
4 bytes equal to `observed2`, and `v` is the low 26 bytes of that
predicted output. -/
theorem gen_prediction_first_match {Pt : Type} (C : CurveOps Pt)
    (sqrt : Nat → Nat) (observed1 observed2 : Nat) (P Q : Pt) (d v : Nat) :
    gen_prediction C sqrt observed1 observed2 P Q d = some v ↔
      ∃ h : Nat, h < 2 ^ 16 ∧
        (∀ h' : Nat, h' < h →
          predictionStep C sqrt observed1 observed2 Q d h' = none) ∧
        (∃ pt : Nat × Nat,
          find_point_on_p256 sqrt ((h <<< 240) ||| observed1) = some pt ∧
          take4MSBytes (take30bytes
              (C.x (C.smul (C.x (C.smul d (C.mkpt pt.1 pt.2))) Q)))
            = observed2 ∧
          v = take26bytes (take30bytes
              (C.x (C.smul (C.x (C.smul d (C.mkpt pt.1 pt.2))) Q)))) := by
  unfold gen_prediction
  rw [searchLoop_some_iff]
  constructor
  · rintro ⟨k, -, hk2, hk3, hk4⟩
    exact ⟨k, by omega, fun h' hh' => hk4 h' (Nat.zero_le _) hh',
      (predictionStep_eq_some_iff C sqrt observed1 observed2 Q d k v).mp hk3⟩
  · rintro ⟨h, hh1, hh2, hh3⟩
    exact ⟨h, Nat.zero_le _, by omega,
      (predictionStep_eq_some_iff C sqrt observed1 observed2 Q d h v).mpr hh3,
      fun j _ hj => hh2 j hj⟩

/-- Witness for C4 with the degenerate provider: the candidate
`high_bits = 0` succeeds immediately, so the search returns its low 26
predicted bytes. -/
theorem gen_prediction_first_match_witness :
    gen_prediction unitOps p256sqrt p256Gx
        (take4MSBytes (take30bytes p256Gx)) () () 2
      = some (take26bytes (take30bytes p256Gx)) :=
  (gen_prediction_first_match unitOps p256sqrt p256Gx
      (take4MSBytes (take30bytes p256Gx)) () () 2
      (take26bytes (take30bytes p256Gx))).mpr
    ⟨0, by norm_num,
      fun h' hh' => absurd hh' (Nat.not_lt_zero h'),
      ⟨(p256Gx, p256sqrt (curveRHS p256Gx)), by decide, by decide, by decide⟩⟩

/-- C5.  Search exhaustion error: `gen_prediction` reports the error
(modelled `none`) iff none of the 65536 candidate `high_bits` values
yields a guess that both lies on the curve and verifies against the
4 observed bytes of the second output; the loop inspects exactly the
candidates below `2^16` and cannot return a value on exhaustion. -/
theorem gen_prediction_exhaustion {Pt : Type} (C : CurveOps Pt)
    (sqrt : Nat → Nat) (observed1 observed2 : Nat) (P Q : Pt) (d : Nat) :
    gen_prediction C sqrt observed1 observed2 P Q d = none ↔
      ∀ h : Nat, h < 2 ^ 16 →
        (find_point_on_p256 sqrt ((h <<< 240) ||| observed1) = none ∨
          ∀ pt : Nat × Nat,
            find_point_on_p256 sqrt ((h <<< 240) ||| observed1) = some pt →
            take4MSBytes (take30bytes
                (C.x (C.smul (C.x (C.smul d (C.mkpt pt.1 pt.2))) Q)))
              ≠ observed2) := by
  unfold gen_prediction
  rw [searchLoop_none_iff]
  constructor
  · intro hall h hh
    exact (predictionStep_eq_none_iff C sqrt observed1 observed2 Q d h).mp
      (hall h (Nat.zero_le _) (by omega))
  · intro hall j _ hj
    exact (predictionStep_eq_none_iff C sqrt observed1 observed2 Q d j).mpr
      (hall j (by omega))

/-- Witness for C5 with the degenerate provider: when the observed top
4 bytes cannot match, every candidate is rejected and the search reports
the error. -/
theorem gen_prediction_exhaustion_witness :
    gen_prediction unitOps p256sqrt p256Gx
        (take4MSBytes (take30bytes p256Gx) + 1) () () 2 = none :=
  (gen_prediction_exhaustion unitOps p256sqrt p256Gx
      (take4MSBytes (take30bytes p256Gx) + 1) () () 2).mpr
    (fun h _ => Or.inr (fun pt _ => by
      show take4MSBytes (take30bytes p256Gx)
          ≠ take4MSBytes (take30bytes p256Gx) + 1
      omega))

/-- C1.  Round-trip of the backdoor: for every initial seed and every
triple `(P, Q, d)` that `gen_backdoor` may produce (drawn scalar
`d ∈ [2, q]`), if `bits1, bits2` are two consecutive `genbits()` outputs,
then `gen_prediction bits1 (bits2 >>> 208) P Q d` returns
`bits2 &&& (2^208 - 1)`.  The hypotheses record exactly the facts the
source delegates to its correct external providers — point equality is
sound (`hpeq`), x-coordinates are field-sized (`hr1`), the square root
succeeds on the quadratic residue of the true curve point (`hsq`), the
x-coordinate of a scalar multiple depends only on the x-coordinate of the
multiplicand (`hxdep`) and scalar multiplications commute (`hcomm`) — and
the claim's negligible-failure carve-out, as the spec words it: the true
high-16-bits value corresponds to a curve point (`hsq` again) and no
smaller candidate spuriously passes the 32-bit verification
(`hnospur`). -/
theorem gen_prediction_roundtrip {Pt : Type} (C : CurveOps Pt)
    (sqrt : Nat → Nat) (inv : Nat → Nat → Nat) (d0 seed : Nat)
    (P Q : Pt) (d : Nat)
    (hd0 : 2 ≤ d0 ∧ d0 ≤ p256q)
    (hgb : gen_backdoor C inv d0 = some (P, Q, d))
    (hpeq : ∀ R S : Pt, C.peq R S = true → R = S)
    (hr1 : C.x (C.smul (C.x (C.smul seed P)) Q) < 2 ^ 256)
    (hsq : sqrt (curveRHS (C.x (C.smul (C.x (C.smul seed P)) Q))) *
             sqrt (curveRHS (C.x (C.smul (C.x (C.smul seed P)) Q))) % p256p
           = curveRHS (C.x (C.smul (C.x (C.smul seed P)) Q)))
    (hxdep : C.x (C.smul d (C.mkpt (C.x (C.smul (C.x (C.smul seed P)) Q))
                 (sqrt (curveRHS (C.x (C.smul (C.x (C.smul seed P)) Q))))))
             = C.x (C.smul d (C.smul (C.x (C.smul seed P)) Q)))
    (hcomm : C.x (C.smul d (C.smul (C.x (C.smul seed P)) Q))
             = C.x (C.smul (C.x (C.smul seed P)) (C.smul d Q)))
    (hnospur : ∀ h : Nat,
        h < (C.x (C.smul (C.x (C.smul seed P)) Q)) >>> 240 →
        predictionStep C sqrt (DualEC.genbits C ⟨seed, P, Q⟩).2
          ((DualEC.genbits C (DualEC.genbits C ⟨seed, P, Q⟩).1).2 >>> 208)
          Q d h = none) :
    gen_prediction C sqrt (DualEC.genbits C ⟨seed, P, Q⟩).2
        ((DualEC.genbits C (DualEC.genbits C ⟨seed, P, Q⟩).1).2 >>> 208) P Q d
      = some ((DualEC.genbits C (DualEC.genbits C ⟨seed, P, Q⟩).1).2
                &&& (2 ^ 208 - 1)) := by
  -- unpack the backdoor construction and its sanity check
  have hck : C.peq (C.smul d0 (C.smul (inv d0 p256q) C.G)) C.G = true ∧
      P = C.G ∧ Q = C.smul (inv d0 p256q) C.G ∧ d = d0 := by
    revert hgb
    simp only [gen_backdoor]
    intro hgb
    by_cases hc : C.peq (C.smul d0 (C.smul (inv d0 p256q) C.G)) C.G = true
    · rw [if_pos hc] at hgb
      have h3 := Option.some.inj hgb
      exact ⟨hc, congrArg Prod.fst h3.symm,
        congrArg (fun z => z.2.1) h3.symm, congrArg (fun z => z.2.2) h3.symm⟩
    · rw [if_neg hc] at hgb
      exact absurd hgb Option.noConfusion
  have hdQ : C.smul d Q = P := by
    rcases hck with ⟨hc, hP, hQ, hd⟩
    rw [hd, hQ, hP]
    exact hpeq _ _ hc
  -- run the search up to the true high bits
  unfold gen_prediction
  rw [searchLoop_some_iff]
  refine ⟨(C.x (C.smul (C.x (C.smul seed P)) Q)) >>> 240, Nat.zero_le _,
    ?_, ?_, fun j _ hj => hnospur j hj⟩
  · -- the true high bits fit in 16 bits
    rw [Nat.shiftRight_eq_div_pow]
    rw [Nat.div_lt_iff_lt_mul (by positivity)]
    calc C.x (C.smul (C.x (C.smul seed P)) Q) < 2 ^ 256 := hr1
    _ ≤ (0 + 2 ^ 16) * 2 ^ 240 := by norm_num
  · -- the candidate at the true high bits is verified and yields bits2's
    -- low 26 bytes
    rw [predictionStep_eq_some_iff]
    refine ⟨(C.x (C.smul (C.x (C.smul seed P)) Q),
      sqrt (curveRHS (C.x (C.smul (C.x (C.smul seed P)) Q)))), ?_, ?_, ?_⟩
    · -- the guess reassembles the true value r1, which is on the curve
      have hguess : ((C.x (C.smul (C.x (C.smul seed P)) Q)) >>> 240) <<< 240 |||
          (DualEC.genbits C ⟨seed, P, Q⟩).2
            = C.x (C.smul (C.x (C.smul seed P)) Q) := by
        show _ ||| take30bytes (C.x (C.smul (C.x (C.smul seed P)) Q)) = _
        rw [take30bytes_eq_mod]
        exact shiftRight_shiftLeft_or_mod _ 240
      rw [hguess]
      unfold find_point_on_p256
      rw [if_pos hsq.symm]
    · -- the verification of the top 4 bytes succeeds
      dsimp only
      rw [hxdep, hcomm, hdQ]
      rfl
    · -- and the returned value is the low 26 bytes of bits2
      dsimp only
      rw [hxdep, hcomm, hdQ]
      rfl

/-- Witness for C1: a concrete P-256 run with drawn scalar `d = 2`,
Fermat inverse and closed-form square root, from seed 6359 (whose first
raw generator output happens to have zero high 16 bits, so the
no-spurious-match hypothesis is vacuous). -/
theorem gen_prediction_roundtrip_witness :
    gen_prediction p256ops p256sqrt
        (DualEC.genbits p256ops
          ⟨6359, p256ops.G, p256ops.smul (modInvF 2 p256q) p256ops.G⟩).2
        ((DualEC.genbits p256ops (DualEC.genbits p256ops
          ⟨6359, p256ops.G,
            p256ops.smul (modInvF 2 p256q) p256ops.G⟩).1).2 >>> 208)
        p256ops.G (p256ops.smul (modInvF 2 p256q) p256ops.G) 2
      = some ((DualEC.genbits p256ops (DualEC.genbits p256ops
          ⟨6359, p256ops.G,
            p256ops.smul (modInvF 2 p256q) p256ops.G⟩).1).2
              &&& (2 ^ 208 - 1)) := by
  refine gen_prediction_roundtrip p256ops p256sqrt modInvF 2 6359
      p256ops.G (p256ops.smul (modInvF 2 p256q) p256ops.G) 2
      (by decide) (by decide) (fun R S h => of_decide_eq_true h)
      (by decide) (by decide) (by decide) (by decide) ?_
  intro h hh
  have h0 : (p256ops.x (p256ops.smul (p256ops.x (p256ops.smul 6359
      p256ops.G)) (p256ops.smul (modInvF 2 p256q) p256ops.G))) >>> 240
        = 0 := by decide
  rw [h0] at hh
  exact absurd hh (Nat.not_lt_zero h)
